import Mathlib

set_option maxRecDepth 100000

/-!
# Verification of the research-gap-pipeline matcher

A shallow embedding of the gap-detection matcher of the repository
(src/test_research_gaps_no_llm.py, src/src/api.py, src/app.py, src/src/main.py)
and proofs about it.

Strings are modelled as `List Char` (`Str`). Python's text operations are
embedded for the character repertoire the matcher operates on: `str.lower`
is modelled on ASCII letters, the regex classes `\w` / `\s` as ASCII
alphanumerics plus underscore, resp. Python's whitespace characters.
-/

abbrev Str := List Char

/-- Python whitespace (the characters `str.strip` and `str.split()` treat as space). -/
def isPySpace (c : Char) : Bool :=
  c == ' ' || c == '\t' || c == '\n' || c == '\r' || c == '\x0b' || c == '\x0c'

/-- The regex class `\w`: word characters (ASCII letters, digits, underscore). -/
def isWordChar (c : Char) : Bool :=
  c.isAlphanum || c == '_'

/-- `str.lower` on one character (ASCII). -/
def pyCharLower (c : Char) : Char := c.toLower

/-- `str.lower`. -/
def pyLower (s : Str) : Str := s.map pyCharLower

/-- `str.strip()`: drop leading and trailing whitespace. -/
def pyStrip (s : Str) : Str :=
  ((s.dropWhile isPySpace).reverse.dropWhile isPySpace).reverse

/-- Python `s.split(sep)` for a one-character separator: always a nonempty
list of (possibly empty) groups. -/
def splitCh (sep : Char) : Str → List Str
  | [] => [[]]
  | c :: cs =>
    match splitCh sep cs with
    | [] => [[]]
    | g :: gs => if c = sep then [] :: g :: gs else (c :: g) :: gs

/-- Python `parts[-1]` on a nonempty list (the split result is never empty);
defaults to `[]` on the empty list. -/
def pyLast (l : List Str) : Str := l.getLast?.getD []

/-- Python `parts[-2]` (defaulting to `[]`; the sources only evaluate it when
the list has at least two elements). -/
def pyPenult (l : List Str) : Str := l.getD (l.length - 2) []

/-- Python `s.split()` with no argument: split on whitespace runs, dropping
empty groups. -/
def pySplitWsAux : Str → Str → List Str
  | [], acc => if acc = [] then [] else [acc.reverse]
  | c :: cs, acc =>
    if isPySpace c then
      (if acc = [] then pySplitWsAux cs [] else acc.reverse :: pySplitWsAux cs [])
    else pySplitWsAux cs (c :: acc)

/-- Python `s.split()` with no argument. -/
def pySplitWs (s : Str) : List Str := pySplitWsAux s []

/-- Line-break characters recognised by `str.splitlines`. -/
def isLineBreak (c : Char) : Bool :=
  c == '\n' || c == '\r' || c == '\x0b' || c == '\x0c' ||
  c == '\x1c' || c == '\x1d' || c == '\x1e' || c == '\x85' ||
  c == '\u2028' || c == '\u2029'

/-- Worker for `str.splitlines`: `\r\n` counts as a single break; a trailing
break does not produce a final empty line. -/
def pySplitlinesAux : Str → Str → List Str
  | [], acc => if acc = [] then [] else [acc.reverse]
  | '\r' :: '\n' :: cs, acc => acc.reverse :: pySplitlinesAux cs []
  | c :: cs, acc =>
    if isLineBreak c then acc.reverse :: pySplitlinesAux cs []
    else pySplitlinesAux cs (c :: acc)

/-- Python `str.splitlines` (so `pySplitlines [] = []`). -/
def pySplitlines (s : Str) : List Str := pySplitlinesAux s []

/-- Does `needle` occur in `hay` starting at index `i`? -/
def occursAt (needle hay : Str) (i : Nat) : Bool :=
  (hay.drop i).take needle.length == needle

/-- Python substring test `needle in hay`. -/
def pyContains (needle hay : Str) : Bool :=
  (List.range (hay.length + 1)).any fun i => occursAt needle hay i

/-- Steps shared by all the repository's slug normalizers after segment
selection: `re.sub(r'[_-]', ' ', s)`, then `re.sub(r'[^\w\s]', '', s)`,
then `.lower().strip()`. -/
def cleanSlug (slug : Str) : Str :=
  let a := slug.map fun c => if c == '_' || c == '-' then ' ' else c
  let b := a.filter fun c => isWordChar c || isPySpace c
  pyStrip (pyLower b)

/-- `normalize_url` of src/test_research_gaps_no_llm.py (lines 24-47):
strip one trailing slash, split on `/`, take the last part or the second to
last if the last is empty (only when there are at least two parts;
otherwise the whole stripped string), then clean. -/
def normalize_url (url : Str) : Str :=
  let u := if url.getLast? = some '/' then url.dropLast else url
  let parts := splitCh '/' u
  let slug :=
    if 1 < parts.length then
      (if pyLast parts ≠ [] then pyLast parts else pyPenult parts)
    else u
  cleanSlug slug

/-- `normalize_url` of src/src/api.py (lines 118-128):
`slug = parts[-1] if parts[-1] else parts[-2] if len(parts) > 1 else url`. -/
def api_normalize_url (url : Str) : Str :=
  let u := if url.getLast? = some '/' then url.dropLast else url
  let parts := splitCh '/' u
  let slug :=
    if pyLast parts ≠ [] then pyLast parts
    else if 1 < parts.length then pyPenult parts
    else u
  cleanSlug slug

/-- `normalize_text` of src/app.py (lines 270-276) and src/src/main.py
(lines 72-85): `text.split('/')[-2] if text.endswith('/') else
text.split('/')[-1]`, then the same cleaning steps. -/
def normalize_text (text : Str) : Str :=
  let t :=
    if text.getLast? = some '/' then pyPenult (splitCh '/' text)
    else pyLast (splitCh '/' text)
  cleanSlug t

/-- The slug normalizer as the specification's five steps read word for word
(spec.md section 4.1, as restated in claim C4): strip one trailing slash,
split on `/` and take the last segment, then the shared cleaning steps.
Used only for comparison against the source normalizers. -/
def spec_normalize_claim (url : Str) : Str :=
  let u := if url.getLast? = some '/' then url.dropLast else url
  let slug := pyLast (splitCh '/' u)
  cleanSlug slug

/-- The slug normalizer as the amended specification reads: as
`spec_normalize_claim`, except that when the last segment is empty and there
are at least two segments, the segment before it is taken instead.
Used only for comparison against the source normalizers. -/
def spec_normalize_amended (url : Str) : Str :=
  let u := if url.getLast? = some '/' then url.dropLast else url
  let parts := splitCh '/' u
  let slug :=
    if 1 < parts.length ∧ pyLast parts = [] then pyPenult parts
    else pyLast parts
  cleanSlug slug

/-- Does the string end in two slashes? (The one shape of input on which the
repository's two slug normalizers disagree.) -/
def endsWithSlashSlash (s : Str) : Bool :=
  match s.reverse with
  | '/' :: '/' :: _ => true
  | _ => false

/-!
## Match strategies (src/test_research_gaps_no_llm.py lines 50-119,
src/src/api.py lines 130-152)
-/

/-- `exact_phrase_match` (test_research_gaps_no_llm.py lines 50-56, api.py
lines 130-133): is the phrase `"{service} in {location}"`, lowercased, a
substring of the lowercased slug? -/
def exact_phrase_match (service location url_slug : Str) : Bool :=
  pyContains (pyLower (service ++ (" in ").toList ++ location)) (pyLower url_slug)

/-- `token_based_match` (test_research_gaps_no_llm.py lines 59-67): both
the service and the location occur as whole whitespace-delimited tokens of
the lowercased slug. -/
def token_based_match (service location url_slug : Str) : Bool :=
  let tokens := pySplitWs (pyLower url_slug)
  tokens.contains (pyLower service) && tokens.contains (pyLower location)

/-- Is the regex word-boundary assertion `\b` true at position `i` of `t`?
(`i` ranges over `0..t.length`; positions outside the text count as
non-word.) -/
def wordAt (t : Str) (i : Nat) : Bool :=
  if h : i < t.length then isWordChar (t.get ⟨i, h⟩) else false

/-- `\b` at position `i`: the two sides disagree on word-char-ness. -/
def boundaryAt (t : Str) (i : Nat) : Bool :=
  (if i = 0 then false else wordAt t (i - 1)) != wordAt t i

/-- Semantics of `re.search(rf'\b{re.escape(S)}\b.*\b{re.escape(L)}\b', t)`:
there are positions `i ≤ j` with `S` at `i` and `L` at `j`, all four `\b`
assertions true, `S` ending before `L` starts, and no newline in the span
matched by `.*` (`.` does not match a newline). -/
def regexSearchSdotL (S L t : Str) : Bool :=
  (List.range (t.length + 1)).any fun i =>
    occursAt S t i && boundaryAt t i && boundaryAt t (i + S.length) &&
    ((List.range (t.length + 1)).any fun j =>
      decide (i + S.length ≤ j) && occursAt L t j && boundaryAt t j &&
      boundaryAt t (j + L.length) &&
      ((t.drop (i + S.length)).take (j - (i + S.length))).all fun c => c != '\n')

/-- `regex_pattern_match` (test_research_gaps_no_llm.py lines 70-77). -/
def regex_pattern_match (service location url_slug : Str) : Bool :=
  regexSearchSdotL (pyLower service) (pyLower location) (pyLower url_slug)

/-!
### difflib.SequenceMatcher (used by `fuzzy_similarity_match`)

The matcher calls `SequenceMatcher(None, a, b).ratio()` on short slug
strings, so the junk/autojunk machinery of difflib is inert (no junk
argument, and autojunk only affects `b` of length at least 200). The float
ratio comparison `ratio() >= threshold` is modelled with exact rational
arithmetic: `2*M/(|a|+|b|) >= num/den`.
-/

/-- The list of indices `j` with `b[j] = c`, in increasing order
(difflib's `b2j`). -/
def b2j (b : Str) (c : Char) : List Nat :=
  (List.range b.length).filter fun j => b.getD j ' ' == c

/-- One row (one character `ci` of `a`, at index `i`) of difflib's
`find_longest_match` loop. State: the `j2len` map of the previous row (as a
total function defaulting to 0) and the best block so far. -/
def flmRow (bjs : List Nat) (blo bhi i : Nat)
    (st : (Nat → Nat) × Nat × Nat × Nat) : (Nat → Nat) × Nat × Nat × Nat :=
  let j2len := st.1
  let js := bjs.filter fun j => decide (blo ≤ j) && decide (j < bhi)
  js.foldl
    (fun acc j =>
      let k := (if j = 0 then 0 else j2len (j - 1)) + 1
      let newj2len := fun j' => if j' = j then k else acc.1 j'
      if acc.2.2.2 < k then (newj2len, i + 1 - k, j + 1 - k, k)
      else (newj2len, acc.2))
    ((fun _ => 0), st.2)

/-- difflib `find_longest_match` on the window `a[alo:ahi]`, `b[blo:bhi]`
(no junk): returns `(i, j, size)` of the longest matching block, earliest
in `a` then in `b` on ties. -/
def find_longest_match (a b : Str) (alo ahi blo bhi : Nat) : Nat × Nat × Nat :=
  let final :=
    (List.range' alo (ahi - alo)).foldl
      (fun st i => flmRow (b2j b (a.getD i ' ')) blo bhi i st)
      ((fun _ => 0), alo, blo, 0)
  final.2

/-- Total size of the matching blocks of difflib `get_matching_blocks`,
computed by the same divide-and-conquer recursion. `fuel` only bounds the
recursion depth; every level of the real recursion strictly shrinks
`(ahi - alo) + (bhi - blo)`, so the initial fuel in `sm_matching_size` is
never exhausted. -/
def matchingTotal (a b : Str) : Nat → Nat → Nat → Nat → Nat → Nat
  | 0, _, _, _, _ => 0
  | fuel + 1, alo, ahi, blo, bhi =>
    let r := find_longest_match a b alo ahi blo bhi
    let i := r.1
    let j := r.2.1
    let k := r.2.2
    if k = 0 then 0
    else
      matchingTotal a b fuel alo i blo j + k +
      matchingTotal a b fuel (i + k) ahi (j + k) bhi

/-- The `M` of difflib `ratio() = 2.0*M/T`. -/
def sm_matching_size (a b : Str) : Nat :=
  matchingTotal a b (a.length + b.length + 1) 0 a.length 0 b.length

/-- Rational model of `2.0*M/T >= num/den` (with `ratio() = 1.0` when
`T = 0`, as in difflib `_calculate_ratio`). -/
def ratioGE (M T num den : Nat) : Bool :=
  if T = 0 then decide (num ≤ den) else decide (num * T ≤ 2 * M * den)

/-- `fuzzy_similarity_match` (test_research_gaps_no_llm.py lines 80-93),
threshold `num/den`: the service must occur as a substring of the slug, and
`SequenceMatcher(None, "{service} in {location}".lower(),
url_slug.lower()).ratio()` must reach the threshold. -/
def fuzzy_similarity_match (service location url_slug : Str) (num den : Nat) : Bool :=
  if ¬ pyContains (pyLower service) (pyLower url_slug) then false
  else
    let expected := pyLower (service ++ (" in ").toList ++ location)
    let bLow := pyLower url_slug
    ratioGE (sm_matching_size expected bLow) (expected.length + bLow.length) num den

/-- `comprehensive_match` (test_research_gaps_no_llm.py lines 96-119): the
four strategies in fixed order on the normalized slug, with the method name
recorded; fuzzy threshold 0.8 = 4/5 at this call site. -/
def comprehensive_match (service location url : Str) : Bool × String :=
  let url_slug := normalize_url url
  if exact_phrase_match service location url_slug then (true, "exact_phrase")
  else if token_based_match service location url_slug then (true, "token_based")
  else if regex_pattern_match service location url_slug then (true, "regex_pattern")
  else if fuzzy_similarity_match service location url_slug 4 5 then (true, "fuzzy_similarity")
  else (false, "no_match")

/-- `comprehensive_match` (api.py lines 135-152): exact phrase, then whole
tokens, then "contains both terms". -/
def api_comprehensive_match (service location url : Str) : Bool × String :=
  let url_slug := api_normalize_url url
  if exact_phrase_match service location url_slug then (true, "exact_phrase")
  else if (pySplitWs url_slug).contains (pyLower service) &&
          (pySplitWs url_slug).contains (pyLower location) then (true, "token_based")
  else if pyContains (pyLower service) url_slug &&
          pyContains (pyLower location) url_slug then (true, "contains_both")
  else (false, "no_match")

/-!
## The exact-phrase-plus-oracle pipeline (src/app.py lines 278-300,
src/src/main.py lines 45-69)

`check_match` first runs the strict phrase check on the normalized slug and
only then consults the oracle. The oracle boundary is modelled by passing
the response in: `none` is a failed query (`query_ollama` returned `None`),
`some r` a response text. The result `none` models an uncaught Python
exception; `some b` a returned boolean.
-/

def check_match (service location url : Str) (oracleResponse : Option Str) :
    Option Bool :=
  let slug := normalize_text url
  let combo := pyLower (service ++ (" in ").toList ++ location)
  if pyContains combo slug then some true
  else
    match oracleResponse with
    | none => some false
    | some r =>
      if r = [] then some false
      else
        match (pySplitlines (pyStrip r)).getLast? with
        | none => none
        | some line => some (pyLower line == ("yes").toList)

/-!
## Gap detector orchestrators (src/test_research_gaps_no_llm.py lines
122-169, src/src/api.py lines 475-540)

The URL list is an input at the external boundary (the sources read it from
sitemap_urls.json through `load_sitemap_urls`, an excluded collaborator per
spec.md section 6), so the detectors take it as a parameter.
-/

/-- The per-(combination, URL) record stored in `matches`. -/
structure MatchRec where
  url : Str
  method : String
deriving DecidableEq, Repr

/-- `f"{service} in {location}"`: the display text of a combination. -/
def display (p : Str × Str) : Str := p.1 ++ (" in ").toList ++ p.2

/-- The service-major, location-minor cross product of combinations. -/
def allPairs : List Str → List Str → List (Str × Str)
  | [], _ => []
  | s :: ss, locations => (locations.map fun l => (s, l)) ++ allPairs ss locations

/-- Python dict assignment `d[k] = v`: overwrite in place if the key is
present, else append. -/
def dictInsert (k : Str) (v : MatchRec) (d : List (Str × MatchRec)) :
    List (Str × MatchRec) :=
  if d.any fun q => decide (q.1 = k) then
    d.map fun q => if q.1 = k then (k, v) else q
  else d ++ [(k, v)]

/-- The inner URL loop of both detectors: scan the URLs in input order with
the given matcher and stop at the first match. -/
def findFirstMatchWith (mf : Str → Str → Str → Bool × String)
    (service location : Str) : List Str → Option MatchRec
  | [] => none
  | url :: rest =>
    let r := mf service location url
    if r.1 then some ⟨url, r.2⟩ else findFirstMatchWith mf service location rest

/-- The inner URL loop of `find_research_gaps_no_llm` (lines 147-154). -/
def findFirstMatch (service location : Str) (urls : List Str) : Option MatchRec :=
  findFirstMatchWith comprehensive_match service location urls

/-- One combination of the detector loop: record the first match in the
dict, or append the display text to the gap list. -/
def detectStepWith (mf : Str → Str → Str → Bool × String) (urls : List Str)
    (st : List (Str × MatchRec) × List Str) (p : Str × Str) :
    List (Str × MatchRec) × List Str :=
  match findFirstMatchWith mf p.1 p.2 urls with
  | some r => (dictInsert (display p) r st.1, st.2)
  | none => (st.1, st.2 ++ [display p])

/-- The full combination loop of either detector, from empty accumulators. -/
def detectCore (mf : Str → Str → Str → Bool × String)
    (services locations urls : List Str) : List (Str × MatchRec) × List Str :=
  (allPairs services locations).foldl (detectStepWith mf urls) ([], [])

/-- The result dictionary of `find_research_gaps_no_llm` (lines 164-169). -/
structure GapReport where
  research_gaps : List Str
  matches' : List (Str × MatchRec)
  total_urls_processed : Nat
  total_gaps_found : Nat
deriving DecidableEq, Repr

/-- `find_research_gaps_no_llm` (test_research_gaps_no_llm.py lines
122-169): error when the URL list is empty (lines 131-133), otherwise the
full cross-product scan with the four-strategy matcher. -/
def find_research_gaps_no_llm (services locations urls : List Str) :
    Except String GapReport :=
  if urls.isEmpty then Except.error "No URLs found"
  else
    let st := detectCore comprehensive_match services locations urls
    Except.ok ⟨st.2, st.1, urls.length, st.2.length⟩

/-- The response payload of `POST /research-gaps/analyze` (api.py lines
533-540). A stored `ResearchGap` row is represented by its combination
display text (its id and `found_at` timestamp are wall-clock concerns
outside the matcher core). -/
structure ApiReport where
  total_combinations : Nat
  matches_found : Nat
  research_gaps : Nat
  gaps : List Str
  matches' : List (Str × MatchRec)
deriving DecidableEq, Repr

/-- `analyze_research_gaps` (api.py lines 475-540): HTTP 400 on empty
services or locations (line 477) and on an empty URL list (line 482),
otherwise the cross-product scan with the api matcher. -/
def analyze_research_gaps (services locations urls : List Str) :
    Except String ApiReport :=
  if services.isEmpty || locations.isEmpty then
    Except.error "Services and locations are required"
  else if urls.isEmpty then Except.error "No sitemap URLs found"
  else
    let st := detectCore api_comprehensive_match services locations urls
    Except.ok ⟨services.length * locations.length, st.1.length, st.2.length, st.2, st.1⟩

/-- The partition property claimed of a detector run: the match dictionary
and the gap list have sizes summing to the number of combinations, and
every combination display text sits in exactly one of the two. -/
abbrev PartitionOK (st : List (Str × MatchRec) × List Str) (combos : List Str) : Prop :=
  st.1.length + st.2.length = combos.length ∧
  ∀ c : Str,
    (c ∈ st.1.map Prod.fst ↔ (c ∈ combos ∧ c ∉ st.2)) ∧
    (c ∈ st.2 ↔ (c ∈ combos ∧ c ∉ st.1.map Prod.fst))

/-!
## Lemmas about the split/segment-selection helpers
-/

lemma splitCh_ne_nil (sep : Char) (l : Str) : splitCh sep l ≠ [] := by
  cases l with
  | nil => simp [splitCh]
  | cons c cs =>
    unfold splitCh
    cases hs : splitCh sep cs with
    | nil => simp
    | cons g gs => by_cases hc : c = sep <;> simp [hc]

lemma splitCh_cons_eq (sep c : Char) {cs g : Str} {gs : List Str}
    (hs : splitCh sep cs = g :: gs) :
    splitCh sep (c :: cs) =
      if c = sep then [] :: g :: gs else (c :: g) :: gs := by
  unfold splitCh
  rw [hs]

lemma splitCh_singleton {sep : Char} {l g : Str} (h : splitCh sep l = [g]) :
    g = l := by
  induction l generalizing g with
  | nil =>
    simp [splitCh] at h
    exact h
  | cons c cs ih =>
    cases hs : splitCh sep cs with
    | nil => exact absurd hs (splitCh_ne_nil sep cs)
    | cons g' gs =>
      rw [splitCh_cons_eq sep c hs] at h
      by_cases hc : c = sep
      · rw [if_pos hc] at h
        injection h with h1 h2
        exact absurd h2 (by simp)
      · rw [if_neg hc] at h
        injection h with h1 h2
        subst h2
        subst h1
        rw [ih hs]

lemma splitCh_concat_sep (sep : Char) (l : Str) :
    splitCh sep (l ++ [sep]) = splitCh sep l ++ [[]] := by
  induction l with
  | nil => simp [splitCh]
  | cons c cs ih =>
    simp only [List.cons_append]
    unfold splitCh
    rw [ih]
    cases hs : splitCh sep cs with
    | nil => exact absurd hs (splitCh_ne_nil sep cs)
    | cons g gs => by_cases hc : c = sep <;> simp [hc]

lemma splitCh_concat_of_ne {sep c : Char} (hc : c ≠ sep) (l : Str) :
    splitCh sep (l ++ [c]) =
      (splitCh sep l).dropLast ++ [pyLast (splitCh sep l) ++ [c]] := by
  induction l with
  | nil => simp [splitCh, hc, pyLast]
  | cons x xs ih =>
    simp only [List.cons_append]
    unfold splitCh
    rw [ih]
    cases hs : splitCh sep xs with
    | nil => exact absurd hs (splitCh_ne_nil sep xs)
    | cons g gs =>
      by_cases hx : x = sep
      · cases gs with
        | nil => simp [hx, pyLast]
        | cons g2 gs2 => simp [hx, pyLast, List.dropLast]
      · cases gs with
        | nil => simp [hx, pyLast]
        | cons g2 gs2 => simp [hx, pyLast, List.dropLast]

lemma pyLast_concat (l : List Str) (a : Str) : pyLast (l ++ [a]) = a := by
  simp [pyLast]

lemma getD_concat_len (q : List Str) (a : Str) :
    (q ++ [a]).getD q.length [] = a := by
  induction q with
  | nil => rfl
  | cons x xs ih => simp [ih]

lemma getD_last {l : List Str} (h : l ≠ []) :
    l.getD (l.length - 1) [] = pyLast l := by
  rcases List.eq_nil_or_concat l with rfl | ⟨q, a, rfl⟩
  · exact absurd rfl h
  · simp only [List.concat_eq_append]
    rw [pyLast_concat]
    have hlen : (q ++ [a]).length - 1 = q.length := by simp
    rw [hlen, getD_concat_len]

lemma splitCh_of_not_gt_one {sep : Char} {l : Str}
    (h : ¬ 1 < (splitCh sep l).length) : splitCh sep l = [l] := by
  have hne := splitCh_ne_nil sep l
  have hlen : (splitCh sep l).length = 1 := by
    cases hl : (splitCh sep l).length with
    | zero => exact absurd (List.length_eq_zero.mp hl) hne
    | succ n =>
      cases n with
      | zero => rfl
      | succ m => omega
  rcases List.length_eq_one.mp hlen with ⟨g, hg⟩
  rw [hg, splitCh_singleton hg]

lemma pyLast_splitCh_ne_nil {sep : Char} {l : Str} (hne : l ≠ [])
    (hlast : l.getLast? ≠ some sep) : pyLast (splitCh sep l) ≠ [] := by
  rcases List.eq_nil_or_concat l with rfl | ⟨q, a, rfl⟩
  · exact absurd rfl hne
  · simp only [List.concat_eq_append] at hlast ⊢
    have ha : a ≠ sep := by
      intro h
      exact hlast (by simp [h])
    rw [splitCh_concat_of_ne ha, pyLast_concat]
    simp

/-!
## Shared facts about the slug normalizers
-/

lemma splitCh_nil (sep : Char) : splitCh sep [] = [[]] := rfl

lemma normalizers_eq_amended (url : Str) :
    normalize_url url = spec_normalize_amended url ∧
    api_normalize_url url = spec_normalize_amended url := by
  simp only [normalize_url, api_normalize_url, spec_normalize_amended]
  generalize (if url.getLast? = some '/' then url.dropLast else url) = u
  by_cases h1 : 1 < (splitCh '/' u).length
  · by_cases h2 : pyLast (splitCh '/' u) = []
    · simp [h1, h2]
    · simp [h1, h2]
  · have hsing : splitCh '/' u = [u] := splitCh_of_not_gt_one h1
    have hlast : pyLast (splitCh '/' u) = u := by rw [hsing]; rfl
    simp [h1, hlast]

/-- C9 (amended): the two slug normalizers agree on every string that does
not end in two slashes. On a string ending in two slashes they can differ:
`normalize_text` keeps the empty final split segment while `normalize_url`
falls back to the segment before it. -/
theorem normalize_text_eq_normalize_url (s : Str)
    (h : endsWithSlashSlash s = false) : normalize_text s = normalize_url s := by
  have hmain : normalize_text s = spec_normalize_amended s := by
    simp only [normalize_text, spec_normalize_amended]
    by_cases hl : s.getLast? = some '/'
    · rcases List.eq_nil_or_concat s with rfl | ⟨q, a, rfl⟩
      · simp at hl
      · simp only [List.concat_eq_append] at h hl ⊢
        have ha : a = '/' := by simpa using hl
        subst ha
        rw [if_pos hl, if_pos hl, List.dropLast_concat]
        have hq : q.getLast? ≠ some '/' := by
          intro hql
          rcases List.eq_nil_or_concat q with rfl | ⟨q2, b, rfl⟩
          · simp at hql
          · simp only [List.concat_eq_append] at h hql
            have hb : b = '/' := by simpa using hql
            subst hb
            simp [endsWithSlashSlash, List.reverse_append] at h
        by_cases hq0 : q = []
        · subst hq0
          simp [splitCh, pyPenult, pyLast]
        · have hPne : splitCh '/' q ≠ [] := splitCh_ne_nil '/' q
          have hcond : ¬ (1 < (splitCh '/' q).length ∧ pyLast (splitCh '/' q) = []) := by
            rintro ⟨-, h2⟩
            exact pyLast_splitCh_ne_nil hq0 hq h2
          rw [if_neg hcond, splitCh_concat_sep]
          unfold pyPenult
          have hlen : (splitCh '/' q ++ [[]]).length - 2 = (splitCh '/' q).length - 1 := by
            simp
          rw [hlen]
          rw [List.getD_append _ _ _ _ (by
            have := List.length_pos.mpr hPne
            omega)]
          rw [getD_last hPne]
    · rw [if_neg hl, if_neg hl]
      by_cases hs0 : s = []
      · subst hs0
        simp [splitCh, pyLast]
      · have hcond : ¬ (1 < (splitCh '/' s).length ∧ pyLast (splitCh '/' s) = []) := by
          rintro ⟨-, h2⟩
          exact pyLast_splitCh_ne_nil hs0 hl h2
        rw [if_neg hcond]
  rw [hmain, (normalizers_eq_amended s).1]

/-!
## Lemmas about the detector loop
-/

lemma dictInsert_of_not_mem {k : Str} {d : List (Str × MatchRec)}
    (h : k ∉ d.map Prod.fst) (v : MatchRec) :
    dictInsert k v d = d ++ [(k, v)] := by
  unfold dictInsert
  rw [if_neg]
  simp only [List.any_eq_true, decide_eq_true_eq]
  rintro ⟨q, hq, hk⟩
  exact h (List.mem_map.mpr ⟨q, hq, hk⟩)

lemma dictInsert_keys_nodup {k : Str} {d : List (Str × MatchRec)}
    (h : (d.map Prod.fst).Nodup) (v : MatchRec) :
    ((dictInsert k v d).map Prod.fst).Nodup := by
  unfold dictInsert
  by_cases hmem : d.any fun q => decide (q.1 = k)
  · rw [if_pos hmem]
    have hkeys : ((d.map fun q => if q.1 = k then (k, v) else q).map Prod.fst) =
        d.map Prod.fst := by
      rw [List.map_map]
      apply List.map_congr_left
      intro q _
      by_cases hq : q.1 = k
      · simp [hq]
      · simp [hq]
    rw [hkeys]
    exact h
  · rw [if_neg hmem]
    simp only [List.any_eq_true, decide_eq_true_eq, not_exists] at hmem
    have hk : k ∉ d.map Prod.fst := by
      intro hin
      rcases List.mem_map.mp hin with ⟨q, hq, hkq⟩
      exact hmem q ⟨hq, hkq⟩
    simp only [List.map_append, List.map_cons, List.map_nil]
    simp [List.nodup_append, h, hk]

/-- The scan outcome of one pair. -/
abbrev pairScan (mf : Str → Str → Str → Bool × String) (urls : List Str)
    (p : Str × Str) : Option MatchRec :=
  findFirstMatchWith mf p.1 p.2 urls

lemma detect_foldl_eq (mf : Str → Str → Str → Bool × String) (urls : List Str) :
    ∀ (pairs : List (Str × Str)) (m0 : List (Str × MatchRec)) (g0 : List Str),
      (pairs.map display).Nodup →
      (∀ p ∈ pairs, display p ∉ m0.map Prod.fst) →
      pairs.foldl (detectStepWith mf urls) (m0, g0) =
        (m0 ++ pairs.filterMap fun p => (pairScan mf urls p).map fun r => (display p, r),
         g0 ++ (pairs.filter fun p => (pairScan mf urls p).isNone).map display) := by
  intro pairs
  induction pairs with
  | nil => intro m0 g0 _ _; simp
  | cons p rest ih =>
    intro m0 g0 hn hdisj
    have hnRest : (rest.map display).Nodup := by
      simp only [List.map_cons, List.nodup_cons] at hn
      exact hn.2
    have hpNotRest : display p ∉ rest.map display := by
      simp only [List.map_cons, List.nodup_cons] at hn
      exact hn.1
    rw [List.foldl_cons]
    cases hscan : pairScan mf urls p with
    | none =>
      have hstep : detectStepWith mf urls (m0, g0) p = (m0, g0 ++ [display p]) := by
        unfold detectStepWith
        rw [show findFirstMatchWith mf p.1 p.2 urls = none from hscan]
      rw [hstep, ih m0 (g0 ++ [display p]) hnRest
        (fun q hq => hdisj q (List.mem_cons_of_mem p hq))]
      simp [hscan]
    | some r =>
      have hstep : detectStepWith mf urls (m0, g0) p =
          (m0 ++ [(display p, r)], g0) := by
        unfold detectStepWith
        rw [show findFirstMatchWith mf p.1 p.2 urls = some r from hscan]
        show (dictInsert (display p) r m0, g0) = _
        rw [dictInsert_of_not_mem (hdisj p (List.mem_cons_self p rest)) r]
      have hdisj' : ∀ q ∈ rest, display q ∉ (m0 ++ [(display p, r)]).map Prod.fst := by
        intro q hq
        simp only [List.map_append, List.map_cons, List.map_nil, List.mem_append,
          List.mem_singleton]
        rintro (hin | hin)
        · exact hdisj q (List.mem_cons_of_mem p hq) hin
        · exact hpNotRest (hin ▸ List.mem_map_of_mem display hq)
      rw [hstep, ih (m0 ++ [(display p, r)]) g0 hnRest hdisj']
      simp [hscan]

lemma scan_count (mf : Str → Str → Str → Bool × String) (urls : List Str)
    (pairs : List (Str × Str)) :
    (pairs.filterMap fun p => (pairScan mf urls p).map fun r => (display p, r)).length +
      ((pairs.filter fun p => (pairScan mf urls p).isNone).map display).length =
      pairs.length := by
  induction pairs with
  | nil => simp
  | cons p rest ih =>
    cases hscan : pairScan mf urls p with
    | none =>
      simp only [List.filterMap_cons, List.filter_cons, hscan, Option.map_none',
        Option.isNone_none, if_true, List.map_cons, List.length_cons,
        List.length_map] at *
      omega
    | some r =>
      simp only [List.filterMap_cons, List.filter_cons, hscan, Option.map_some',
        Option.isNone_some, Bool.false_eq_true, if_false, List.length_cons,
        List.length_map] at *
      omega

lemma allPairs_length (services locations : List Str) :
    (allPairs services locations).length = services.length * locations.length := by
  induction services with
  | nil => simp [allPairs]
  | cons s ss ih => simp [allPairs, ih, Nat.succ_mul, Nat.add_comm]

lemma detectCore_eq (mf : Str → Str → Str → Bool × String)
    (services locations urls : List Str)
    (hn : ((allPairs services locations).map display).Nodup) :
    detectCore mf services locations urls =
      ((allPairs services locations).filterMap fun p =>
         (pairScan mf urls p).map fun r => (display p, r),
       ((allPairs services locations).filter fun p =>
         (pairScan mf urls p).isNone).map display) := by
  unfold detectCore
  rw [detect_foldl_eq mf urls (allPairs services locations) [] [] hn (by simp)]
  simp

lemma mem_scan_keys (mf : Str → Str → Str → Bool × String) (urls : List Str)
    (pairs : List (Str × Str)) (c : Str) :
    (c ∈ ((pairs.filterMap fun p =>
        (pairScan mf urls p).map fun r => (display p, r)).map Prod.fst)) ↔
      ∃ p, p ∈ pairs ∧ display p = c ∧ (pairScan mf urls p).isSome := by
  constructor
  · intro hc
    rcases List.mem_map.mp hc with ⟨x, hx, hxc⟩
    rcases List.mem_filterMap.mp hx with ⟨p, hp, hpe⟩
    rcases Option.map_eq_some'.mp hpe with ⟨r, hr, hxr⟩
    refine ⟨p, hp, ?_, by simp [hr]⟩
    rw [← hxc, ← hxr]
  · rintro ⟨p, hp, hdc, hsome⟩
    rcases Option.isSome_iff_exists.mp hsome with ⟨r, hr⟩
    exact List.mem_map.mpr
      ⟨(display p, r), List.mem_filterMap.mpr ⟨p, hp, by rw [hr]; rfl⟩, hdc⟩

lemma mem_scan_gaps (mf : Str → Str → Str → Bool × String) (urls : List Str)
    (pairs : List (Str × Str)) (c : Str) :
    (c ∈ (pairs.filter fun p => (pairScan mf urls p).isNone).map display) ↔
      ∃ p, p ∈ pairs ∧ display p = c ∧ pairScan mf urls p = none := by
  constructor
  · intro hc
    rcases List.mem_map.mp hc with ⟨p, hp, hpc⟩
    rcases List.mem_filter.mp hp with ⟨hp1, hp2⟩
    exact ⟨p, hp1, hpc, by simpa using hp2⟩
  · rintro ⟨p, hp, hdc, hnone⟩
    exact List.mem_map.mpr ⟨p, List.mem_filter.mpr ⟨hp, by simp [hnone]⟩, hdc⟩

lemma detectCore_partition (mf : Str → Str → Str → Bool × String)
    (services locations urls : List Str)
    (hn : ((allPairs services locations).map display).Nodup) :
    PartitionOK (detectCore mf services locations urls)
      ((allPairs services locations).map display) := by
  have hinj := List.inj_on_of_nodup_map hn
  rw [detectCore_eq mf services locations urls hn]
  constructor
  · have := scan_count mf urls (allPairs services locations)
    simpa [List.length_map] using this
  · intro c
    have hkeys := mem_scan_keys mf urls (allPairs services locations) c
    have hgaps := mem_scan_gaps mf urls (allPairs services locations) c
    constructor
    · rw [hkeys]
      constructor
      · rintro ⟨p, hp, hdc, hsome⟩
        refine ⟨List.mem_map.mpr ⟨p, hp, hdc⟩, ?_⟩
        rw [hgaps]
        rintro ⟨q, hq, hdq, hnone⟩
        have : p = q := hinj hp hq (hdc.trans hdq.symm)
        rw [this, hnone] at hsome
        simp at hsome
      · rintro ⟨hdisp, hnotgap⟩
        rcases List.mem_map.mp hdisp with ⟨p, hp, hdc⟩
        cases hscan : pairScan mf urls p with
        | none => exact absurd (hgaps.mpr ⟨p, hp, hdc, hscan⟩) hnotgap
        | some r => exact ⟨p, hp, hdc, by simp [hscan]⟩
    · rw [hgaps]
      constructor
      · rintro ⟨p, hp, hdc, hnone⟩
        refine ⟨List.mem_map.mpr ⟨p, hp, hdc⟩, ?_⟩
        rw [hkeys]
        rintro ⟨q, hq, hdq, hsome⟩
        have : p = q := hinj hp hq (hdc.trans hdq.symm)
        rw [← this, hnone] at hsome
        simp at hsome
      · rintro ⟨hdisp, hnotkey⟩
        rcases List.mem_map.mp hdisp with ⟨p, hp, hdc⟩
        cases hscan : pairScan mf urls p with
        | none => exact ⟨p, hp, hdc, hscan⟩
        | some r =>
          exact absurd (hkeys.mpr ⟨p, hp, hdc, by simp [hscan]⟩) hnotkey

lemma findFirstMatchWith_first (mf : Str → Str → Str → Bool × String) (s l : Str) :
    ∀ (urls : List Str) (r : MatchRec),
      findFirstMatchWith mf s l urls = some r →
      ∃ i : Nat, urls[i]? = some r.url ∧ mf s l r.url = (true, r.method) ∧
        ∀ j, j < i → ∀ u, urls[j]? = some u → (mf s l u).1 = false := by
  intro urls
  induction urls with
  | nil => intro r h; simp [findFirstMatchWith] at h
  | cons u rest ih =>
    intro r h
    simp only [findFirstMatchWith] at h
    by_cases hc : (mf s l u).1 = true
    · rw [if_pos hc] at h
      injection h with h1
      subst h1
      refine ⟨0, by simp, ?_, ?_⟩
      · show mf s l u = (true, (mf s l u).2)
        rw [← hc]
      · intro j hj u' hu'
        exact absurd hj (Nat.not_lt_zero j)
    · rw [if_neg hc] at h
      rcases ih r h with ⟨i, hi, hmf, hprev⟩
      refine ⟨i + 1, by simpa using hi, hmf, ?_⟩
      intro j hj u' hu'
      cases j with
      | zero =>
        have hu : u' = u := by
          simp only [List.getElem?_cons_zero] at hu'
          exact (Option.some_injective _ hu').symm
        subst hu
        simpa using hc
      | succ j' =>
        exact hprev j' (by omega) u' (by simpa using hu')

lemma detectCore_keys_nodup (mf : Str → Str → Str → Bool × String)
    (services locations urls : List Str) :
    (((detectCore mf services locations urls).1).map Prod.fst).Nodup := by
  suffices h : ∀ (pairs : List (Str × Str)) (st : List (Str × MatchRec) × List Str),
      (st.1.map Prod.fst).Nodup →
      (((pairs.foldl (detectStepWith mf urls) st).1).map Prod.fst).Nodup by
    exact h _ _ (by simp)
  intro pairs
  induction pairs with
  | nil => intro st h; simpa using h
  | cons p rest ih =>
    intro st h
    rw [List.foldl_cons]
    apply ih
    unfold detectStepWith
    cases hscan : findFirstMatchWith mf p.1 p.2 urls with
    | some r => exact dictInsert_keys_nodup h r
    | none => simpa using h

lemma allPairs_nil_right (services : List Str) : allPairs services [] = [] := by
  induction services with
  | nil => rfl
  | cons s ss ih => simp [allPairs, ih]

/-!
## The claims
-/

/-- C1 (amended): for every run of either gap detector in which the display
texts of the cross-product combinations are pairwise distinct, every
combination display text appears in exactly one of the match dictionary and
the gap list, and their sizes sum to `len(services) * len(locations)`.
(As stated the claim fails: the match dictionary is keyed by display text,
so duplicate display texts collapse into one entry.) -/
theorem gap_detector_partition (services locations urls : List Str)
    (hn : ((allPairs services locations).map display).Nodup) :
    PartitionOK (detectCore comprehensive_match services locations urls)
        ((allPairs services locations).map display) ∧
    PartitionOK (detectCore api_comprehensive_match services locations urls)
        ((allPairs services locations).map display) ∧
    (∀ r, find_research_gaps_no_llm services locations urls = Except.ok r →
        r.matches'.length + r.research_gaps.length =
          services.length * locations.length) ∧
    (∀ r, analyze_research_gaps services locations urls = Except.ok r →
        r.matches'.length + r.gaps.length = services.length * locations.length) := by
  have h1 := detectCore_partition comprehensive_match services locations urls hn
  have h2 := detectCore_partition api_comprehensive_match services locations urls hn
  have hlen : ((allPairs services locations).map display).length =
      services.length * locations.length := by
    rw [List.length_map, allPairs_length]
  refine ⟨h1, h2, ?_, ?_⟩
  · intro r hr
    unfold find_research_gaps_no_llm at hr
    by_cases hu : urls.isEmpty
    · rw [if_pos hu] at hr
      exact absurd hr (by simp)
    · rw [if_neg hu] at hr
      injection hr with hr
      subst hr
      exact h1.1.trans hlen
  · intro r hr
    unfold analyze_research_gaps at hr
    by_cases hsl : services.isEmpty || locations.isEmpty
    · rw [if_pos hsl] at hr
      exact absurd hr (by simp)
    · rw [if_neg hsl] at hr
      by_cases hu : urls.isEmpty
      · rw [if_pos hu] at hr
        exact absurd hr (by simp)
      · rw [if_neg hu] at hr
        injection hr with hr
        subst hr
        exact h2.1.trans hlen

/-- Witness for C1: a concrete two-combination run in which the partition
invariant holds (one match, one gap). -/
theorem gap_detector_partition_witness :
    PartitionOK
      (detectCore comprehensive_match [("paving").toList, ("x").toList]
        [("manchester").toList] [("https://x.com/paving-in-manchester/").toList])
      ((allPairs [("paving").toList, ("x").toList] [("manchester").toList]).map
        display) :=
  (gap_detector_partition [("paving").toList, ("x").toList]
    [("manchester").toList] [("https://x.com/paving-in-manchester/").toList]
    (by decide)).1

/-- Counterexample for C1 as stated: with the duplicate service list
`["a", "a"]` the two combinations share the display text `"a in b"`, the
dict keeps one entry, and `len(matches) + len(gaps) = 1 ≠ 2 = 2 * 1`. -/
theorem gap_detector_partition_cex :
    (find_research_gaps_no_llm [("a").toList, ("a").toList] [("b").toList]
        [("a-in-b").toList]).toOption.map
      (fun r => r.matches'.length + r.research_gaps.length) = some 1 ∧
    [("a").toList, ("a").toList].length * [("b").toList].length = 2 := by
  decide

/-- C2 (code bug): the oracle-fallback classifier of `check_match` is meant
to be fail-closed and never raise, but on a whitespace-only oracle response
`response.strip().splitlines()` is the empty list and the `[-1]` index
raises `IndexError` (modelled as `none`). A failed query (`None`) and a
clear trailing "yes"/"YES" behave as specified. -/
theorem check_match_raises_on_blank_response :
    check_match ("a").toList ("b").toList ("https://x.com/zzz").toList
        (some ("   ").toList) = none ∧
    check_match ("a").toList ("b").toList ("https://x.com/zzz").toList
        (some ("ok\nYES").toList) = some true ∧
    check_match ("a").toList ("b").toList ("https://x.com/zzz").toList
        none = some false := by
  decide

/-- C3 (amended): the API detector fails immediately when services,
locations, or urls is empty. The no-LLM detector fails immediately only
when urls is empty; with empty services or locations and nonempty urls it
instead returns a normal report with no matches and no gaps. -/
theorem empty_input_handling (services locations urls : List Str) :
    (services = [] ∨ locations = [] →
      analyze_research_gaps services locations urls =
        Except.error "Services and locations are required") ∧
    (services ≠ [] → locations ≠ [] → urls = [] →
      analyze_research_gaps services locations urls =
        Except.error "No sitemap URLs found") ∧
    (urls = [] →
      find_research_gaps_no_llm services locations urls =
        Except.error "No URLs found") ∧
    (services = [] ∨ locations = [] →
      find_research_gaps_no_llm services locations urls =
        if urls.isEmpty then Except.error "No URLs found"
        else Except.ok ⟨[], [], urls.length, 0⟩) := by
  refine ⟨?_, ?_, ?_, ?_⟩
  · rintro (rfl | rfl) <;> simp [analyze_research_gaps]
  · intro hs hl hu
    subst hu
    cases services with
    | nil => exact absurd rfl hs
    | cons a as =>
      cases locations with
      | nil => exact absurd rfl hl
      | cons b bs => simp [analyze_research_gaps]
  · intro hu
    subst hu
    rfl
  · intro h
    have hpairs : allPairs services locations = [] := by
      rcases h with rfl | rfl
      · rfl
      · exact allPairs_nil_right services
    unfold find_research_gaps_no_llm
    by_cases hu : urls.isEmpty
    · rw [if_pos hu, if_pos hu]
    · rw [if_neg hu, if_neg hu]
      unfold detectCore
      rw [hpairs]
      rfl

/-- Witness for C3: the three fail-fast branches at concrete inputs. -/
theorem empty_input_handling_witness :
    analyze_research_gaps [] [("b").toList] [("u").toList] =
      Except.error "Services and locations are required" ∧
    analyze_research_gaps [("a").toList] [("b").toList] [] =
      Except.error "No sitemap URLs found" ∧
    find_research_gaps_no_llm [("a").toList] [("b").toList] [] =
      Except.error "No URLs found" :=
  ⟨(empty_input_handling [] [("b").toList] [("u").toList]).1 (Or.inl rfl),
   (empty_input_handling [("a").toList] [("b").toList] []).2.1
     (by decide) (by decide) rfl,
   (empty_input_handling [("a").toList] [("b").toList] []).2.2.1 rfl⟩

/-- Counterexample for C3 as stated: `find_research_gaps_no_llm` with empty
services (and nonempty urls) does not fail; it returns an ordinary empty
report. -/
theorem empty_input_cex :
    find_research_gaps_no_llm [] [("b").toList] [("u").toList] =
      Except.ok { research_gaps := [], matches' := [],
                  total_urls_processed := 1, total_gaps_found := 0 } :=
  rfl

/-- C4 (amended): both slug normalizers compute the five specification
steps, except that in step 2, when the last split segment is empty (the
input ended in two or more slashes) they take the segment before it. -/
theorem normalizers_follow_amended_spec (url : Str) :
    normalize_url url = spec_normalize_amended url ∧
    api_normalize_url url = spec_normalize_amended url :=
  normalizers_eq_amended url

/-- Counterexample for C4 as stated: on `"a//"` the code yields `"a"` while
the claim's literal five steps (last segment after split) yield `""`. -/
theorem normalizer_spec_steps_cex :
    normalize_url ("a//").toList = ("a").toList ∧
    api_normalize_url ("a//").toList = ("a").toList ∧
    spec_normalize_claim ("a//").toList = [] ∧
    ¬ normalize_url ("a//").toList = spec_normalize_claim ("a//").toList := by
  decide

/-- C5 (amended): the four-strategy pipeline's method is always one of
exact_phrase, token_based, regex_pattern, fuzzy_similarity, no_match; the
api pipeline's method is always one of exact_phrase, token_based,
contains_both, no_match. (As stated the claim fails: "contains_both" is
outside the claimed enumeration.) -/
theorem method_enumeration (service location url : Str) :
    (comprehensive_match service location url).2 ∈
      (["exact_phrase", "token_based", "regex_pattern", "fuzzy_similarity",
        "no_match"] : List String) ∧
    (api_comprehensive_match service location url).2 ∈
      (["exact_phrase", "token_based", "contains_both", "no_match"] :
        List String) := by
  constructor
  · simp only [comprehensive_match]
    split_ifs <;> simp
  · simp only [api_comprehensive_match]
    split_ifs <;> simp

/-- Counterexample for C5 as stated: the api pipeline produces the method
"contains_both", which is not in the claimed enumeration. -/
theorem method_enumeration_cex :
    api_comprehensive_match ("a").toList ("b").toList ("aab").toList =
      (true, "contains_both") ∧
    ("contains_both" : String) ∉
      (["exact_phrase", "token_based", "regex_pattern", "fuzzy_similarity",
        "oracle", "no_match"] : List String) := by
  decide

/-- C6: when the normalized slug satisfies both the exact-phrase test and
the fuzzy-similarity test (threshold 0.8 = 4/5 as at this call site), the
four-strategy pipeline short-circuits on the first strategy and reports
exact_phrase. -/
theorem strategy_priority_order (service location url : Str)
    (he : exact_phrase_match service location (normalize_url url) = true)
    (_hf : fuzzy_similarity_match service location (normalize_url url) 4 5 = true) :
    comprehensive_match service location url = (true, "exact_phrase") := by
  unfold comprehensive_match
  rw [if_pos he]

/-- Witness for C6: a slug satisfying both exact_phrase and
fuzzy_similarity, recorded as exact_phrase. -/
theorem strategy_priority_order_witness :
    exact_phrase_match ("paving").toList ("manchester").toList
        (normalize_url ("https://x.com/paving-in-manchester/").toList) = true ∧
    fuzzy_similarity_match ("paving").toList ("manchester").toList
        (normalize_url ("https://x.com/paving-in-manchester/").toList) 4 5 = true ∧
    comprehensive_match ("paving").toList ("manchester").toList
        ("https://x.com/paving-in-manchester/").toList = (true, "exact_phrase") :=
  ⟨by decide, by decide,
   strategy_priority_order ("paving").toList ("manchester").toList
     ("https://x.com/paving-in-manchester/").toList (by decide) (by decide)⟩

/-- C7: the per-combination scan records the first matching URL in input
order (all earlier URLs fail), and the match dictionary of a full run never
holds more than one entry per combination display text. -/
theorem first_match_wins (s l : Str) (services locations urls : List Str)
    (r : MatchRec) (h : findFirstMatch s l urls = some r) :
    (∃ i : Nat, urls[i]? = some r.url ∧
        comprehensive_match s l r.url = (true, r.method) ∧
        ∀ j, j < i → ∀ u, urls[j]? = some u →
          (comprehensive_match s l u).1 = false) ∧
    (((detectCore comprehensive_match services locations urls).1).map
        Prod.fst).Nodup :=
  ⟨findFirstMatchWith_first comprehensive_match s l urls r h,
   detectCore_keys_nodup comprehensive_match services locations urls⟩

/-- Witness for C7: with two matching URLs in the list, the first one (index
1; index 0 does not match) is recorded and the scan stops. -/
theorem first_match_wins_witness :
    (∃ i : Nat,
      ([("https://x.com/other-page").toList,
        ("https://x.com/paving-in-manchester/").toList,
        ("https://x.com/paving-in-manchester-two/").toList] : List Str)[i]? =
          some ("https://x.com/paving-in-manchester/").toList ∧
      comprehensive_match ("paving").toList ("manchester").toList
          ("https://x.com/paving-in-manchester/").toList =
        (true, "exact_phrase") ∧
      ∀ j, j < i → ∀ u,
        ([("https://x.com/other-page").toList,
          ("https://x.com/paving-in-manchester/").toList,
          ("https://x.com/paving-in-manchester-two/").toList] : List Str)[j]? =
            some u →
        (comprehensive_match ("paving").toList ("manchester").toList u).1 =
          false) ∧
    (((detectCore comprehensive_match [("paving").toList] [("manchester").toList]
        [("https://x.com/other-page").toList,
         ("https://x.com/paving-in-manchester/").toList,
         ("https://x.com/paving-in-manchester-two/").toList]).1).map
        Prod.fst).Nodup :=
  first_match_wins ("paving").toList ("manchester").toList
    [("paving").toList] [("manchester").toList]
    [("https://x.com/other-page").toList,
     ("https://x.com/paving-in-manchester/").toList,
     ("https://x.com/paving-in-manchester-two/").toList]
    ⟨("https://x.com/paving-in-manchester/").toList, "exact_phrase"⟩ (by decide)

/-- C8: combination ("spa", "bath") does not token-match the slug of
"spacious-bathroom-remodel" even though both strings occur as substrings
of it. -/
theorem token_boundary_precision :
    token_based_match ("spa").toList ("bath").toList
        (normalize_url ("spacious-bathroom-remodel").toList) = false ∧
    pyContains ("spa").toList
        (normalize_url ("spacious-bathroom-remodel").toList) = true ∧
    pyContains ("bath").toList
        (normalize_url ("spacious-bathroom-remodel").toList) = true := by
  decide

/-- Witness for C9: the two normalizers agree on an ordinary URL. -/
theorem normalize_text_eq_normalize_url_witness :
    endsWithSlashSlash ("https://x.com/a-b/").toList = false ∧
    normalize_text ("https://x.com/a-b/").toList =
      normalize_url ("https://x.com/a-b/").toList :=
  ⟨by decide,
   normalize_text_eq_normalize_url ("https://x.com/a-b/").toList (by decide)⟩

/-- Counterexample for C9 as stated: on `"a//"` the two normalizers
disagree (`""` versus `"a"`). -/
theorem normalize_text_eq_normalize_url_cex :
    normalize_text ("a//").toList = [] ∧
    normalize_url ("a//").toList = ("a").toList ∧
    ¬ normalize_text ("a//").toList = normalize_url ("a//").toList := by
  decide

/-- C10: in both pipelines the boolean half of the result is true exactly
when the reported method differs from "no_match". -/
theorem is_match_iff_method_ne_no_match (service location url : Str) :
    ((comprehensive_match service location url).1 = true ↔
      (comprehensive_match service location url).2 ≠ "no_match") ∧
    ((api_comprehensive_match service location url).1 = true ↔
      (api_comprehensive_match service location url).2 ≠ "no_match") := by
  constructor
  · simp only [comprehensive_match]
    split_ifs <;> simp
  · simp only [api_comprehensive_match]
    split_ifs <;> simp
